import Mathlib

/-
Verification of the batch outreach pipeline in src/api.py.

The pipeline's pure logic (keyword fallback scoring, score matching and
sorting, top-N selection, per-employee result construction, the message
parser, and the queue worker loop) is embedded as executable Lean
definitions.  External LLM calls (research_company, the scoring model
invocation, and generate_message_variants / select_best_message, which
api.py imports from main.py) are modelled as oracle inputs: an
`Except String` value whose `.error` constructor models a raised Python
exception and whose `.ok` value is the returned text or parsed payload.
-/

/-- Employee record from the Clay request (src/api.py, class Employee). -/
structure Employee where
  vmid : String
  title : String
  fullName : String
  firstName : String := ""
  lastName : String := ""
  summary : String := ""
  titleDescription : String := ""
  linkedInProfileUrl : String := ""
  companyName : String := ""
deriving DecidableEq

/-- Scored employee (src/api.py, class EmployeeScore).  The pydantic bounds
0 <= score <= 100 are checked where the source constructs values from
unvalidated LLM output (see score_employees). -/
structure EmployeeScore where
  vmid : String
  fullName : String
  title : String
  score : Int
  reasoning : String
deriving DecidableEq

/-- Result posted to the webhook (src/api.py, class OutreachResult). -/
structure OutreachResult where
  vmid : String
  fullName : String
  title : String
  selected : Bool
  selection_reasoning : String := ""
  message : String := ""
  message_score : Int := 0
  error : String := ""
deriving DecidableEq

/- ===== character-list models of the Python string operations used ===== -/

/-- Python str.lower() (ASCII-faithful), as a character list. -/
def lowerChars (s : String) : List Char := s.toList.map Char.toLower

/-- Python substring membership `needle in hay` on character lists. -/
def containsSeq (needle : List Char) : List Char → Bool
  | [] => needle.isPrefixOf []
  | c :: rest => needle.isPrefixOf (c :: rest) || containsSeq needle rest

/-- The part of `s` strictly before the first occurrence of `sep`
(`s` itself when `sep` does not occur): Python s.split(sep)[0]. -/
def beforeFirst (sep : List Char) : List Char → List Char
  | [] => []
  | c :: rest => if sep.isPrefixOf (c :: rest) then [] else c :: beforeFirst sep rest

/-- The chunk of `s` between the first and second occurrence of `sep`
(to the end when `sep` occurs once), `none` when `sep` does not occur:
Python s.split(sep)[1], with `none` modelling the IndexError. -/
def chunkAfterFirst (sep : List Char) : List Char → Option (List Char)
  | [] => if sep.isPrefixOf ([] : List Char) then some [] else none
  | c :: rest =>
    if sep.isPrefixOf (c :: rest) then some (beforeFirst sep ((c :: rest).drop sep.length))
    else chunkAfterFirst sep rest

/-- Whitespace stripped by Python str.strip() (ASCII range). -/
def isPySpace (c : Char) : Bool :=
  c == ' ' || c == '\t' || c == '\n' || c == '\r' || c.toNat == 11 || c.toNat == 12

/-- Python str.strip(). -/
def trimChars (cs : List Char) : List Char :=
  ((cs.dropWhile isPySpace).reverse.dropWhile isPySpace).reverse

/-- Digits of a Python integer literal after the first one: each underscore
must be followed by a digit (int("1_0") is legal, int("1__0") is not). -/
def digitsTail : List Char → Bool
  | [] => true
  | c :: rest =>
    if c == '_' then
      match rest with
      | [] => false
      | d :: rs => d.isDigit && digitsTail rs
    else c.isDigit && digitsTail rest

/-- A nonempty digit group as accepted by Python int(). -/
def pyDigitsOk : List Char → Bool
  | [] => false
  | c :: rest => c.isDigit && digitsTail rest

/-- Numeric value of a digit group, ignoring underscores. -/
def digitsVal (cs : List Char) : Int :=
  cs.foldl (fun n c => if c.isDigit then 10 * n + (Int.ofNat (c.toNat - 48)) else n) 0

/-- Python int(str): surrounding whitespace tolerated, optional sign, then a
digit group; `none` models a raised ValueError. -/
def pyParseInt (s : List Char) : Option Int :=
  match trimChars s with
  | '+' :: rest => if pyDigitsOk rest then some (digitsVal rest) else none
  | '-' :: rest => if pyDigitsOk rest then some (-(digitsVal rest)) else none
  | cs => if pyDigitsOk cs then some (digitsVal cs) else none

/- ===== fallback scoring (src/api.py, fallback_scoring, lines 160-196) ===== -/

/-- Keyword base score of the elif chain in fallback_scoring, applied to the
lowercased title.  The source tests the categories in this order: cto /
chief technology, vp / vice president, chief, director, head of, manager. -/
def fallbackBase (t : List Char) : Int :=
  if containsSeq "cto".toList t || containsSeq "chief technology".toList t then 95
  else if containsSeq "vp".toList t || containsSeq "vice president".toList t then 90
  else if containsSeq "chief".toList t then 85
  else if containsSeq "director".toList t then 75
  else if containsSeq "head of".toList t then 80
  else if containsSeq "manager".toList t then 60
  else 50

/-- Bonus keywords of fallback_scoring. -/
def fallbackBonusHit (t : List Char) : Bool :=
  (["digital", "technology", "tech", "innovation", "transformation"]).any
    (fun kw => containsSeq kw.toList t)

/-- The score fallback_scoring assigns to one title: base from the keyword
chain, +10 bonus when a tech keyword occurs, clamped to 100 after the bonus. -/
def fallbackTitleScore (title : String) : Int :=
  min (fallbackBase (lowerChars title) + (if fallbackBonusHit (lowerChars title) then 10 else 0)) 100

/-- Descending stable sort by score: Python list.sort(key=score, reverse=True).
Python's sort is stable, and insertion sort under this relation is exactly
the stable descending sort. -/
def scoreGE (a b : EmployeeScore) : Prop := b.score ≤ a.score

instance : DecidableRel scoreGE := fun a b => Int.decLe b.score a.score

instance : IsTotal EmployeeScore scoreGE := ⟨fun a b => le_total b.score a.score⟩

instance : IsTrans EmployeeScore scoreGE := ⟨fun _ _ _ h1 h2 => le_trans h2 h1⟩

def sortByScoreDesc (l : List EmployeeScore) : List EmployeeScore :=
  l.insertionSort scoreGE

/-- src/api.py fallback_scoring: one EmployeeScore per employee from the
title keywords, then sorted by score descending. -/
def fallback_scoring (employees : List Employee) : List EmployeeScore :=
  sortByScoreDesc (employees.map (fun emp =>
    { vmid := emp.vmid, fullName := emp.fullName, title := emp.title,
      score := fallbackTitleScore emp.title,
      reasoning := "Scored based on title and role relevance" }))

-- sanity examples; note "director" contains "cto" as a substring, so any
-- director title takes the first branch of the chain and scores 95
example : fallbackTitleScore "CTO" = 95 := by decide
example : fallbackTitleScore "Manager" = 60 := by decide
example : fallbackTitleScore "Director" = 95 := by decide
example : fallbackTitleScore "Intern" = 50 := by decide
example : fallbackTitleScore "VP Sales" = 90 := by decide
example : fallbackTitleScore "Chief Technology Officer" = 100 := by decide
example : fallbackTitleScore "Head of Digital" = 90 := by decide

/- ===== scoring step (src/api.py, score_employees, lines 90-157) ===== -/

/-- One element of the JSON array returned by the scoring LLM. -/
structure ScoreEntry where
  name : String
  score : Int
  reasoning : String
deriving DecidableEq

/-- The matching test of score_employees: the employee's full name,
lowercased, occurs inside the entry's name field, lowercased. -/
def nameMatches (s : ScoreEntry) (emp : Employee) : Bool :=
  containsSeq (lowerChars emp.fullName) (lowerChars s.name)

/-- First entry matching an employee: next((s for s in scores if ...), None). -/
def matchFor (entries : List ScoreEntry) (emp : Employee) : Option ScoreEntry :=
  entries.find? (fun s => nameMatches s emp)

/-- The EmployeeScore list built in the parse path of score_employees,
before sorting: employees with no matching entry are skipped. -/
def matchedScores (employees : List Employee) (entries : List ScoreEntry) : List EmployeeScore :=
  employees.filterMap (fun emp => (matchFor entries emp).map (fun m =>
    { vmid := emp.vmid, fullName := emp.fullName, title := emp.title,
      score := m.score, reasoning := m.reasoning }))

/-- The pydantic bound on EmployeeScore.score; a matched entry outside it
makes the EmployeeScore constructor raise inside the try block. -/
def scoreWithinBounds (s : EmployeeScore) : Bool :=
  decide (0 ≤ s.score) && decide (s.score ≤ 100)

/-- src/api.py score_employees, after the LLM call returned content.
`response = none` models content on which json.loads (or the subsequent
processing inside the try block) raises, `some entries` a parsed JSON
array.  Every failure inside the try block falls back to fallback_scoring;
the parse path sorts the matched scores by score descending. -/
def score_employees (employees : List Employee) (response : Option (List ScoreEntry)) : List EmployeeScore :=
  match response with
  | some entries =>
    let scored := matchedScores employees entries
    if scored.all scoreWithinBounds then sortByScoreDesc scored
    else fallback_scoring employees
  | none => fallback_scoring employees

/- ===== message step (src/api.py, generate_message_for_employee, 201-241) ===== -/

/-- The dict generate_message_for_employee returns (keys message, score,
error; error is absent on success, modelled as ""). -/
structure MsgResult where
  message : String
  score : Int
  error : String
deriving DecidableEq

/-- Score extraction of lines 223-228: default 8; when "Score:" occurs in
the selector output, try int(sel.split("Score:")[1].split("/")[0].strip())
and keep 8 when that raises.  The inner chunk is `some` whenever the
containment guard holds, so the `getD []` default is never consulted. -/
def extractScore (sel : String) : Int :=
  if containsSeq "Score:".toList sel.toList then
    match pyParseInt (beforeFirst "/".toList ((chunkAfterFirst "Score:".toList sel.toList).getD [])) with
    | some n => n
    | none => 8
  else 8

/-- src/api.py generate_message_for_employee.  The combined outcome of
generate_message_variants and select_best_message (imported from main.py)
enters as `selResp`: `.error e` models an exception raised by either call
(caught at line 236), `.ok sel` the selector's returned text.  A missing
"SELECTED MESSAGE:" marker raises IndexError at line 220, also caught. -/
def generate_message_for_employee (selResp : Except String String) : MsgResult :=
  match selResp with
  | .error e => { message := "", score := 0, error := e }
  | .ok sel =>
    match chunkAfterFirst "SELECTED MESSAGE:".toList sel.toList with
    | none => { message := "", score := 0, error := "list index out of range" }
    | some chunk =>
      { message := String.mk (trimChars (beforeFirst "WHY THIS ONE".toList chunk)),
        score := extractScore sel,
        error := "" }

/- ===== batch pipeline (src/api.py, process_company_batch, 262-329) ===== -/

/-- The configuration values process_company_batch and queue_worker read
via CONFIG.get("api", {}).get(key, default); `none` models an absent key. -/
structure Config where
  max_targets_per_company : Option Nat := none
  delay_between_companies : Option Nat := none
deriving DecidableEq

/-- Outcomes of the external LLM calls during one batch: `.error` models a
raised exception, `.ok` the returned value.  The scoring response is a
function of the research text (the prompt embeds it); the selector response
is per employee. -/
structure LLMWorld where
  research : Except String String
  scoreResponse : String → Except String (Option (List ScoreEntry))
  selectResponse : Employee → Except String String

/-- The selection test of lines 285 and 291: some entry among the first
top_n scored entries has this employee's vmid and a score of at least 70. -/
def isSelectedIn (top_n : Nat) (scored : List EmployeeScore) (emp : Employee) : Bool :=
  (scored.take top_n).any (fun s => s.vmid == emp.vmid && decide (70 ≤ s.score))

/-- The OutreachResult built for one employee in the loop of lines 290-327.
`none` models the StopIteration that next(s for s in scored ...) at line
303 would raise when no scored entry carries the vmid — provable below to
be unreachable, since is_selected already requires such an entry. -/
def resultFor (top_n : Nat) (scored : List EmployeeScore) (world : LLMWorld) (emp : Employee) : Option OutreachResult :=
  if isSelectedIn top_n scored emp then
    match scored.find? (fun s => s.vmid == emp.vmid) with
    | some score_obj =>
      let msg := generate_message_for_employee (world.selectResponse emp)
      some { vmid := emp.vmid, fullName := emp.fullName, title := emp.title,
             selected := true,
             selection_reasoning := "Score: " ++ toString score_obj.score ++ "/100. " ++ score_obj.reasoning,
             message := msg.message, message_score := msg.score, error := msg.error }
    | none => none
  else
    some { vmid := emp.vmid, fullName := emp.fullName, title := emp.title,
           selected := false,
           selection_reasoning :=
             match scored.find? (fun s => s.vmid == emp.vmid) with
             | some score_obj => "Not selected. Score: " ++ toString score_obj.score ++ "/100. " ++ score_obj.reasoning
             | none => "Not scored.",
           message := "", message_score := 0, error := "" }

/-- The per-employee loop: each produced result is handed to
send_to_webhook immediately (delivery errors are swallowed there), so the
returned list is exactly the sequence of results handed to the sink.  An
uncaught exception mid-loop would leave the earlier deliveries done. -/
def deliverLoop (top_n : Nat) (scored : List EmployeeScore) (world : LLMWorld) : List Employee → List OutreachResult
  | [] => []
  | emp :: rest =>
    match resultFor top_n scored world emp with
    | some r => r :: deliverLoop top_n scored world rest
    | none => []

/-- src/api.py process_company_batch: the sequence of OutreachResult handed
to the Delivery Sink for one batch.  An exception raised by
research_company or by the scoring LLM invocation (line 131, outside the
try block) propagates to queue_worker before any delivery, so those runs
deliver nothing. -/
def process_company_batch (cfg : Config) (employees : List Employee) (world : LLMWorld) : List OutreachResult :=
  match world.research with
  | .error _ => []
  | .ok research =>
    match world.scoreResponse research with
    | .error _ => []
    | .ok response =>
      let scored := score_employees employees response
      deliverLoop (cfg.max_targets_per_company.getD 3) scored world employees

/- ===== queue worker (src/api.py, queue_worker, lines 334-360) ===== -/

/-- One queued batch: the tuple (company_name, employees, webhook_url). -/
structure QueuedBatch where
  company_name : String
  employees : List Employee
  webhook_url : String

/-- src/api.py queue_worker over the sequence of items the queue yields:
`none` is the shutdown sentinel; `proc` is the outcome of
process_company_batch on one batch, `.error` modelling an exception, which
the bare except at line 357 catches before the loop continues.  The result
is the list of batches the worker hands to process_company_batch, in order.
An empty remainder models the worker blocking on an empty queue. -/
def queue_worker (proc : QueuedBatch → Except String Unit) : List (Option QueuedBatch) → List QueuedBatch
  | [] => []
  | none :: _ => []
  | some b :: rest =>
    match proc b with
    | .ok _ => b :: queue_worker proc rest
    | .error _ => b :: queue_worker proc rest

/- ===== the claim's reading of the fallback table (for C3) ===== -/

/-- Base score per the claim's table, with the categories taking precedence
exactly in the order the claim lists them: cto/chief technology, vp/vice
president, chief, head of, director, manager.  (The source's elif chain
tests director before head of instead; the theorem below shows the two
orders agree on every title, because a title containing "director" always
contains "cto".) -/
def claimBase (t : List Char) : Int :=
  if containsSeq "cto".toList t || containsSeq "chief technology".toList t then 95
  else if containsSeq "vp".toList t || containsSeq "vice president".toList t then 90
  else if containsSeq "chief".toList t then 85
  else if containsSeq "head of".toList t then 80
  else if containsSeq "director".toList t then 75
  else if containsSeq "manager".toList t then 60
  else 50

/-- The bonus keywords as the claim lists them. -/
def claimBonusKeywords : List String :=
  ["digital", "technology", "tech", "innovation", "transformation"]

/-- Modelled from the claim text of C3: keyword-table base with the claim's
precedence order, +10 bonus for a tech keyword, clamped to 100 after the
bonus. -/
def claimFallbackScore (title : String) : Int :=
  min (claimBase (lowerChars title) +
        (if claimBonusKeywords.any (fun kw => containsSeq kw.toList (lowerChars title)) then 10 else 0)) 100

/- ===== helper lemmas ===== -/

theorem containsSeq_correct (needle hay : List Char) :
    containsSeq needle hay = true ↔ needle <:+: hay := by
  induction hay with
  | nil =>
    simp only [containsSeq, List.isPrefixOf_iff_prefix, List.prefix_nil, List.infix_nil]
  | cons c rest ih =>
    simp only [containsSeq, Bool.or_eq_true, List.isPrefixOf_iff_prefix, ih]
    exact (List.infix_cons_iff).symm

theorem director_implies_cto (t : List Char) :
    containsSeq "director".toList t = true → containsSeq "cto".toList t = true := by
  intro h
  exact (containsSeq_correct _ _).mpr
    (List.IsInfix.trans ((containsSeq_correct _ _).mp (by decide))
      ((containsSeq_correct _ _).mp h))

theorem fallbackBase_eq_claimBase (t : List Char) : fallbackBase t = claimBase t := by
  unfold fallbackBase claimBase
  by_cases h1 : (containsSeq "cto".toList t || containsSeq "chief technology".toList t) = true
  · simp only [h1, if_true]
  · have hcto : containsSeq "cto".toList t = false := by
      cases hc : containsSeq "cto".toList t
      · rfl
      · refine absurd ?hor h1
        rw [hc]
        rfl
    have hd : containsSeq "director".toList t = false := by
      cases hdc : containsSeq "director".toList t
      · rfl
      · have hcc := director_implies_cto t hdc
        rw [hcto] at hcc
        exact absurd hcc (by decide)
    simp only [h1, hd, if_false, Bool.false_eq_true]

theorem fallbackBase_bounds (t : List Char) : 50 ≤ fallbackBase t ∧ fallbackBase t ≤ 95 := by
  unfold fallbackBase
  split_ifs <;> constructor <;> decide

theorem fallbackTitleScore_bounds (title : String) :
    0 ≤ fallbackTitleScore title ∧ fallbackTitleScore title ≤ 100 := by
  unfold fallbackTitleScore
  constructor
  · apply le_min
    · have h := (fallbackBase_bounds (lowerChars title)).1
      split_ifs <;> omega
    · decide
  · exact min_le_right _ _

theorem sortByScoreDesc_sorted (l : List EmployeeScore) :
    List.Sorted scoreGE (sortByScoreDesc l) :=
  List.sorted_insertionSort scoreGE l

theorem sortByScoreDesc_perm (l : List EmployeeScore) :
    (sortByScoreDesc l).Perm l :=
  List.perm_insertionSort scoreGE l

/-- The score a fallback run assigns to each of its entries is the keyword
score of the carried title. -/
theorem mem_fallback_scoring {emps : List Employee} {s : EmployeeScore}
    (hs : s ∈ fallback_scoring emps) :
    ∃ emp ∈ emps, s = { vmid := emp.vmid, fullName := emp.fullName, title := emp.title,
                        score := fallbackTitleScore emp.title,
                        reasoning := "Scored based on title and role relevance" } := by
  have hmem := (sortByScoreDesc_perm _).mem_iff.mp hs
  rcases List.mem_map.mp hmem with ⟨emp, hemp, hEq⟩
  exact ⟨emp, hemp, hEq.symm⟩

theorem fallback_scoring_sorted (emps : List Employee) :
    List.Sorted scoreGE (fallback_scoring emps) :=
  sortByScoreDesc_sorted _

theorem score_employees_sorted (emps : List Employee) (resp : Option (List ScoreEntry)) :
    List.Sorted scoreGE (score_employees emps resp) := by
  unfold score_employees
  cases resp with
  | none => exact fallback_scoring_sorted emps
  | some entries =>
    by_cases h : (matchedScores emps entries).all scoreWithinBounds = true
    · simp only [h, if_true]
      exact sortByScoreDesc_sorted _
    · simp only [h, if_false, Bool.false_eq_true]
      exact fallback_scoring_sorted emps

/-- The StopIteration branch of the delivery loop is unreachable: the
selection test already requires a scored entry with the employee's vmid. -/
theorem resultFor_isSome (top_n : Nat) (scored : List EmployeeScore) (world : LLMWorld)
    (emp : Employee) : (resultFor top_n scored world emp).isSome = true := by
  unfold resultFor
  by_cases h : isSelectedIn top_n scored emp = true
  · rw [if_pos h]
    have hex : ∃ s ∈ scored, (s.vmid == emp.vmid) = true := by
      unfold isSelectedIn at h
      rcases List.any_eq_true.mp h with ⟨s, hs, hp⟩
      rw [Bool.and_eq_true] at hp
      exact ⟨s, List.mem_of_mem_take hs, hp.1⟩
    have hsome : (scored.find? (fun s => s.vmid == emp.vmid)).isSome = true :=
      List.find?_isSome.mpr hex
    rcases Option.isSome_iff_exists.mp hsome with ⟨v, hv⟩
    rw [hv]
    rfl
  · rw [if_neg h]
    rfl

theorem deliverLoop_getElem (top_n : Nat) (scored : List EmployeeScore) (world : LLMWorld) :
    ∀ (emps : List Employee) (i : Nat),
      (deliverLoop top_n scored world emps)[i]? = emps[i]?.bind (resultFor top_n scored world) := by
  intro emps
  induction emps with
  | nil => intro i; simp [deliverLoop]
  | cons e rest ih =>
    intro i
    rcases Option.isSome_iff_exists.mp (resultFor_isSome top_n scored world e) with ⟨r, hr⟩
    unfold deliverLoop
    rw [hr]
    cases i with
    | zero => simp [hr]
    | succ n => simpa using ih n

theorem deliverLoop_length (top_n : Nat) (scored : List EmployeeScore) (world : LLMWorld) :
    ∀ emps : List Employee, (deliverLoop top_n scored world emps).length = emps.length := by
  intro emps
  induction emps with
  | nil => rfl
  | cons e rest ih =>
    rcases Option.isSome_iff_exists.mp (resultFor_isSome top_n scored world e) with ⟨r, hr⟩
    unfold deliverLoop
    rw [hr]
    simpa using ih

theorem mem_deliverLoop {top_n : Nat} {scored : List EmployeeScore} {world : LLMWorld}
    {r : OutreachResult} :
    ∀ {emps : List Employee}, r ∈ deliverLoop top_n scored world emps →
      ∃ emp ∈ emps, resultFor top_n scored world emp = some r := by
  intro emps
  induction emps with
  | nil => intro h; exact absurd h (by simp [deliverLoop])
  | cons e rest ih =>
    intro h
    rcases Option.isSome_iff_exists.mp (resultFor_isSome top_n scored world e) with ⟨v, hv⟩
    rw [deliverLoop, hv] at h
    rcases List.mem_cons.mp h with h0 | h1
    · exact ⟨e, List.mem_cons_self e rest, by rw [hv, h0]⟩
    · rcases ih h1 with ⟨emp, hemp, heq⟩
      exact ⟨emp, List.mem_cons_of_mem e hemp, heq⟩

/-- The selected flag of each produced result is exactly the selection test. -/
theorem resultFor_selected (top_n : Nat) (scored : List EmployeeScore) (world : LLMWorld)
    (emp : Employee) {r : OutreachResult} (h : resultFor top_n scored world emp = some r) :
    r.selected = isSelectedIn top_n scored emp ∧ r.vmid = emp.vmid := by
  unfold resultFor at h
  by_cases hsel : isSelectedIn top_n scored emp = true
  · rw [if_pos hsel] at h
    cases hf : scored.find? (fun s => s.vmid == emp.vmid) with
    | none => rw [hf] at h; exact absurd h (by simp)
    | some v =>
      rw [hf] at h
      cases h
      exact ⟨hsel.symm, rfl⟩
  · rw [if_neg hsel] at h
    cases h
    simp only [Bool.not_eq_true] at hsel
    exact ⟨hsel.symm, rfl⟩

/-- Both branches of queue_worker's iteration keep the batch and continue. -/
theorem queue_worker_cons_some (proc : QueuedBatch → Except String Unit) (b : QueuedBatch)
    (rest : List (Option QueuedBatch)) :
    queue_worker proc (some b :: rest) = b :: queue_worker proc rest := by
  simp only [queue_worker]
  cases proc b <;> rfl

/-- The worker drains exactly the sentinel-free prefix of the queue. -/
theorem queue_worker_drains_head_segment (proc : QueuedBatch → Except String Unit) :
    ∀ items : List (Option QueuedBatch),
      queue_worker proc items = (items.takeWhile Option.isSome).reduceOption := by
  intro items
  induction items with
  | nil => rfl
  | cons it rest ih =>
    cases it with
    | none => rfl
    | some b =>
      rw [queue_worker_cons_some, ih]
      simp [List.takeWhile, List.reduceOption]

/- ===== concrete fixtures for witnesses and counterexamples ===== -/

def adaEmployee : Employee :=
  { vmid := "v1", title := "CTO", fullName := "Ada Lovelace" }

/-- The scoring LLM invocation (line 131, outside the try block) raises. -/
def worldScoringDown : LLMWorld :=
  { research := Except.ok "research text",
    scoreResponse := fun _ => Except.error "openai connection error",
    selectResponse := fun _ => Except.ok "" }

/-- Scoring content unparsable (fallback path), message selection succeeds. -/
def worldFallbackOk : LLMWorld :=
  { research := Except.ok "research text",
    scoreResponse := fun _ => Except.ok none,
    selectResponse := fun _ =>
      Except.ok "SELECTED MESSAGE:\nHello Ada\n\nWHY THIS ONE (Score: 9/10):\ngood fit" }

/-- Scoring content unparsable (fallback path), message generation raises. -/
def worldGenFail : LLMWorld :=
  { research := Except.ok "research text",
    scoreResponse := fun _ => Except.ok none,
    selectResponse := fun _ => Except.error "openai timeout" }

/-- Scoring parses as the empty JSON array: nobody gets scored. -/
def worldEmptyScores : LLMWorld :=
  { research := Except.ok "research text",
    scoreResponse := fun _ => Except.ok (some []),
    selectResponse := fun _ => Except.ok "" }

/- ===== claim theorems ===== -/

/-- Claim C3: fallback scoring computes each employee's score by the keyword
table — base 50; cto/chief technology 95; vp/vice president 90; other chief
85; head of 80; director 75; manager 60, in that precedence order — then
adds 10 for a tech keyword and clamps to 100 after the bonus.  The source's
elif chain tests director before head of, but the two orders agree on every
title: a title containing "director" always contains "cto", so both chains
resolve such titles at the first category. -/
theorem fallback_scores_by_claim_table (emps : List Employee) (s : EmployeeScore)
    (hs : s ∈ fallback_scoring emps) : s.score = claimFallbackScore s.title := by
  rcases mem_fallback_scoring hs with ⟨emp, _, rfl⟩
  show fallbackTitleScore emp.title = claimFallbackScore emp.title
  unfold fallbackTitleScore claimFallbackScore fallbackBonusHit claimBonusKeywords
  rw [fallbackBase_eq_claimBase]

theorem fallback_scores_by_claim_table_witness :
    ({ vmid := "v1", fullName := "Ada Lovelace", title := "CTO", score := 95,
       reasoning := "Scored based on title and role relevance" } : EmployeeScore).score
      = claimFallbackScore "CTO" :=
  fallback_scores_by_claim_table [adaEmployee] _ (by decide)

/-- Claim C6: fallback scoring is deterministic, pure and total — every
entry it produces carries the score fallbackTitleScore of its own title (a
fixed function of the title alone, so the same title receives the same
score in any run, whatever the other employees or their order), the score
lies in [0, 100], and a run on any list returns one entry per employee
(it never raises). -/
theorem fallback_deterministic_pure_bounded (emps : List Employee) (s : EmployeeScore)
    (hs : s ∈ fallback_scoring emps) :
    s.score = fallbackTitleScore s.title ∧ 0 ≤ s.score ∧ s.score ≤ 100 ∧
    (fallback_scoring emps).length = emps.length := by
  have hlen : (fallback_scoring emps).length = emps.length := by
    unfold fallback_scoring
    rw [(sortByScoreDesc_perm _).length_eq, List.length_map]
  rcases mem_fallback_scoring hs with ⟨emp, _, rfl⟩
  exact ⟨rfl, (fallbackTitleScore_bounds emp.title).1, (fallbackTitleScore_bounds emp.title).2, hlen⟩

theorem fallback_deterministic_pure_bounded_witness :
    (({ vmid := "v1", fullName := "Ada Lovelace", title := "CTO", score := 95,
        reasoning := "Scored based on title and role relevance" } : EmployeeScore).score
        = fallbackTitleScore "CTO")
      ∧ 0 ≤ (95 : Int) ∧ (95 : Int) ≤ 100 ∧ (fallback_scoring [adaEmployee]).length = 1 :=
  fallback_deterministic_pure_bounded [adaEmployee] _ (by decide)

/-- Claim C7: the work queue is drained in FIFO order by the single worker:
whatever the per-batch processing outcomes, the worker handles exactly the
batches enqueued before the first None sentinel, one at a time, in enqueue
order, and the sentinel terminates the loop with everything after it left
unprocessed. -/
theorem queue_worker_fifo_and_sentinel :
    ∀ (proc : QueuedBatch → Except String Unit) (items : List (Option QueuedBatch)),
      (queue_worker proc items = (items.takeWhile Option.isSome).reduceOption)
      ∧ ∀ (pre : List QueuedBatch) (rest : List (Option QueuedBatch)),
          queue_worker proc (pre.map some ++ none :: rest) = pre := by
  intro proc items
  refine ⟨queue_worker_drains_head_segment proc items, ?_⟩
  intro pre rest
  induction pre with
  | nil => rfl
  | cons b pre ih =>
    rw [List.map_cons, List.cons_append, queue_worker_cons_some, ih]

/-- Claim C8: a failure while processing one batch is caught inside the
worker loop and the worker proceeds to the next queue item: the sequence of
batches the worker processes does not depend on the per-batch outcomes at
all, so no per-batch failure terminates the loop or skips later batches. -/
theorem queue_worker_failure_oblivious :
    ∀ (procA procB : QueuedBatch → Except String Unit) (items : List (Option QueuedBatch)),
      queue_worker procA items = queue_worker procB items := by
  intro procA procB items
  rw [queue_worker_drains_head_segment procA items, queue_worker_drains_head_segment procB items]

/-- When research and the scoring LLM call both return, the batch reduces
to the delivery loop over the scored list. -/
theorem process_company_batch_ok (cfg : Config) (emps : List Employee) (world : LLMWorld)
    (research : String) (resp : Option (List ScoreEntry))
    (hres : world.research = Except.ok research)
    (hresp : world.scoreResponse research = Except.ok resp) :
    process_company_batch cfg emps world
      = deliverLoop (cfg.max_targets_per_company.getD 3) (score_employees emps resp) world emps := by
  simp only [process_company_batch, hres, hresp]

/-- Every produced result carries the identity fields of its employee. -/
theorem resultFor_ids (top_n : Nat) (scored : List EmployeeScore) (world : LLMWorld)
    (emp : Employee) {r : OutreachResult} (h : resultFor top_n scored world emp = some r) :
    r.vmid = emp.vmid ∧ r.fullName = emp.fullName ∧ r.title = emp.title := by
  unfold resultFor at h
  by_cases hsel : isSelectedIn top_n scored emp = true
  · rw [if_pos hsel] at h
    cases hf : scored.find? (fun s => s.vmid == emp.vmid) with
    | none => rw [hf] at h; exact absurd h (by simp)
    | some v =>
      rw [hf] at h
      cases h
      exact ⟨rfl, rfl, rfl⟩
  · rw [if_neg hsel] at h
    cases h
    exact ⟨rfl, rfl, rfl⟩

/-- A produced result with a nonempty error field is a selected one: the
not-selected branch never writes the error field. -/
theorem resultFor_error_selected (top_n : Nat) (scored : List EmployeeScore) (world : LLMWorld)
    (emp : Employee) {r : OutreachResult} (h : resultFor top_n scored world emp = some r)
    (he : r.error ≠ "") : r.selected = true := by
  unfold resultFor at h
  by_cases hsel : isSelectedIn top_n scored emp = true
  · rw [if_pos hsel] at h
    cases hf : scored.find? (fun s => s.vmid == emp.vmid) with
    | none => rw [hf] at h; exact absurd h (by simp)
    | some v =>
      rw [hf] at h
      cases h
      rfl
  · rw [if_neg hsel] at h
    cases h
    exact absurd rfl he

/-- Per-index count of selected results equals the count of employees
passing the selection test. -/
theorem deliverLoop_selected_count (top_n : Nat) (scored : List EmployeeScore) (world : LLMWorld) :
    ∀ emps : List Employee,
      ((deliverLoop top_n scored world emps).filter (fun r => r.selected)).length
        = (emps.filter (fun e => isSelectedIn top_n scored e)).length := by
  intro emps
  induction emps with
  | nil => rfl
  | cons e rest ih =>
    rcases Option.isSome_iff_exists.mp (resultFor_isSome top_n scored world e) with ⟨r, hr⟩
    have hsel := (resultFor_selected top_n scored world e hr).1
    unfold deliverLoop
    rw [hr]
    rw [List.filter_cons, List.filter_cons, hsel]
    cases hse : isSelectedIn top_n scored e <;> simp [hse, ih]

/-- Claim C5: in the scoring step's parse path (all matched entries within
the pydantic bounds), an employee is matched exactly when the employee's
lowercased full name occurs as a substring of an entry's lowercased name
field (the first such entry is used); unmatched employees are omitted (the
output is a permutation of the matched-employee list); and the returned
list is sorted by score descending. -/
theorem scoring_matches_by_name_substring (emps : List Employee) (entries : List ScoreEntry)
    (hv : (matchedScores emps entries).all scoreWithinBounds = true) :
    (score_employees emps (some entries)).Perm (matchedScores emps entries)
    ∧ List.Sorted scoreGE (score_employees emps (some entries))
    ∧ ∀ emp : Employee, (matchFor entries emp).isSome = true ↔
        ∃ s ∈ entries, lowerChars emp.fullName <:+: lowerChars s.name := by
  refine ⟨?_, score_employees_sorted emps (some entries), ?_⟩
  · simp only [score_employees, hv, if_true]
    exact sortByScoreDesc_perm _
  · intro emp
    rw [matchFor, List.find?_isSome]
    constructor
    · rintro ⟨s, hs, hp⟩
      exact ⟨s, hs, (containsSeq_correct _ _).mp hp⟩
    · rintro ⟨s, hs, hp⟩
      exact ⟨s, hs, (containsSeq_correct _ _).mpr hp⟩

theorem scoring_matches_by_name_substring_witness :
    (score_employees [adaEmployee]
        (some [{ name := "Dr. Ada Lovelace PhD", score := 88, reasoning := "strong fit" }])).Perm
      (matchedScores [adaEmployee]
        [{ name := "Dr. Ada Lovelace PhD", score := 88, reasoning := "strong fit" }])
    ∧ List.Sorted scoreGE (score_employees [adaEmployee]
        (some [{ name := "Dr. Ada Lovelace PhD", score := 88, reasoning := "strong fit" }]))
    ∧ ∀ emp : Employee,
        (matchFor [{ name := "Dr. Ada Lovelace PhD", score := 88, reasoning := "strong fit" }] emp).isSome = true
        ↔ ∃ s ∈ [({ name := "Dr. Ada Lovelace PhD", score := 88, reasoning := "strong fit" } : ScoreEntry)],
            lowerChars emp.fullName <:+: lowerChars s.name :=
  scoring_matches_by_name_substring [adaEmployee] _ (by decide)

/-- Claim C1 counterexample: a batch of one employee whose scoring LLM
invocation raises (that call sits outside the try block at line 131, so the
exception propagates out of process_company_batch before any delivery):
nothing is handed to the Delivery Sink, so the delivered count differs from
the employee count. -/
theorem batch_can_drop_results_on_scoring_exception :
    ¬ ((process_company_batch {} [adaEmployee] worldScoringDown).length
        = ([adaEmployee] : List Employee).length) := by
  decide

/-- Claim C1 (amended): whenever the research call and the scoring LLM
invocation return without raising — scoring parse failures, generation
failures and delivery outcomes all remaining arbitrary — the batch hands
exactly one OutreachResult per EmployeeProfile to the Delivery Sink, in
employee order, each carrying its employee's identity: no drops and no
duplicates. -/
theorem batch_delivers_one_result_per_employee (cfg : Config) (emps : List Employee)
    (world : LLMWorld) (research : String) (resp : Option (List ScoreEntry))
    (hres : world.research = Except.ok research)
    (hresp : world.scoreResponse research = Except.ok resp) :
    (process_company_batch cfg emps world).length = emps.length
    ∧ ∀ i : Nat, ((process_company_batch cfg emps world)[i]?).map
          (fun r => (r.vmid, r.fullName, r.title))
        = (emps[i]?).map (fun e => (e.vmid, e.fullName, e.title)) := by
  rw [process_company_batch_ok cfg emps world research resp hres hresp]
  constructor
  · exact deliverLoop_length _ _ _ emps
  · intro i
    rw [deliverLoop_getElem]
    cases he : emps[i]? with
    | none => rfl
    | some e =>
      rcases Option.isSome_iff_exists.mp
        (resultFor_isSome (cfg.max_targets_per_company.getD 3) (score_employees emps resp) world e)
        with ⟨r, hr⟩
      rcases resultFor_ids _ _ _ _ hr with ⟨h1, h2, h3⟩
      simp [hr, h1, h2, h3]

theorem batch_delivers_one_result_per_employee_witness :
    (process_company_batch {} [adaEmployee] worldFallbackOk).length
        = ([adaEmployee] : List Employee).length
    ∧ ∀ i : Nat, ((process_company_batch {} [adaEmployee] worldFallbackOk)[i]?).map
          (fun r => (r.vmid, r.fullName, r.title))
        = (([adaEmployee] : List Employee)[i]?).map (fun e => (e.vmid, e.fullName, e.title)) :=
  batch_delivers_one_result_per_employee {} [adaEmployee] worldFallbackOk "research text" none rfl rfl

/-- Claim C4 counterexample: a selected employee whose message generation
raises gets an OutreachResult with a populated error AND selected=true —
lines 310-312 copy the generation error into an is_selected result — so "a
result whose error is populated is never marked selected" is false. -/
theorem error_result_with_selected_true :
    ¬ (∀ r ∈ process_company_batch {} [adaEmployee] worldGenFail,
        r.error ≠ "" → r.selected = false) := by
  decide

/-- Claim C4 (amended): the polarity is the opposite of the claim — every
OutreachResult with a non-empty error field has selected=true, because the
error field is only ever written in the is_selected branch (from a failed
generation); the not-selected branch always leaves error empty. -/
theorem error_results_are_selected (cfg : Config) (emps : List Employee) (world : LLMWorld)
    (r : OutreachResult) (hr : r ∈ process_company_batch cfg emps world)
    (he : r.error ≠ "") : r.selected = true := by
  cases hwr : world.research with
  | error e => simp [process_company_batch, hwr] at hr
  | ok research =>
    cases hws : world.scoreResponse research with
    | error e2 => simp [process_company_batch, hwr, hws] at hr
    | ok resp =>
      rw [process_company_batch_ok cfg emps world research resp hwr hws] at hr
      rcases mem_deliverLoop hr with ⟨emp, _, heq⟩
      exact resultFor_error_selected _ _ _ _ heq he

/-- The concrete result worldGenFail produces for adaEmployee. -/
def adaGenFailResult : OutreachResult :=
  { vmid := "v1", fullName := "Ada Lovelace", title := "CTO", selected := true,
    selection_reasoning := "Score: 95/100. Scored based on title and role relevance",
    message := "", message_score := 0, error := "openai timeout" }

theorem error_results_are_selected_witness : adaGenFailResult.selected = true :=
  error_results_are_selected {} [adaEmployee] worldGenFail adaGenFailResult
    (by decide) (by decide)

/-- Claim C9: an employee of the batch absent from the scored list (no
scored entry carries its vmid) still gets a delivered OutreachResult, at
its own position, with selected=false, empty message fields and the literal
selection reasoning "Not scored.". -/
theorem unscored_employee_still_delivered (cfg : Config) (emps : List Employee)
    (world : LLMWorld) (research : String) (resp : Option (List ScoreEntry))
    (e : Employee) (i : Nat)
    (hres : world.research = Except.ok research)
    (hresp : world.scoreResponse research = Except.ok resp)
    (he : emps[i]? = some e)
    (hnm : ∀ s ∈ score_employees emps resp, s.vmid ≠ e.vmid) :
    (process_company_batch cfg emps world)[i]?
      = some { vmid := e.vmid, fullName := e.fullName, title := e.title, selected := false,
               selection_reasoning := "Not scored.", message := "", message_score := 0,
               error := "" } := by
  rw [process_company_batch_ok cfg emps world research resp hres hresp, deliverLoop_getElem, he]
  have hfind : (score_employees emps resp).find? (fun s => s.vmid == e.vmid) = none := by
    rw [List.find?_eq_none]
    intro s hs
    simpa using hnm s hs
  have hsel : isSelectedIn (cfg.max_targets_per_company.getD 3) (score_employees emps resp) e
      = false := by
    unfold isSelectedIn
    cases hany : (((score_employees emps resp).take (cfg.max_targets_per_company.getD 3)).any
        (fun s => s.vmid == e.vmid && decide (70 ≤ s.score))) with
    | false => rfl
    | true =>
      rcases List.any_eq_true.mp hany with ⟨s, hs, hp⟩
      rw [Bool.and_eq_true] at hp
      exact absurd (by simpa using hp.1) (hnm s (List.mem_of_mem_take hs))
  show (resultFor (cfg.max_targets_per_company.getD 3) (score_employees emps resp) world e) = _
  unfold resultFor
  rw [if_neg (by simp [hsel]), hfind]

theorem unscored_employee_still_delivered_witness :
    (process_company_batch {} [adaEmployee] worldEmptyScores)[0]?
      = some { vmid := adaEmployee.vmid, fullName := adaEmployee.fullName,
               title := adaEmployee.title, selected := false,
               selection_reasoning := "Not scored.", message := "", message_score := 0,
               error := "" } :=
  unscored_employee_still_delivered {} [adaEmployee] worldEmptyScores "research text"
    (some []) adaEmployee 0 rfl rfl rfl (by decide)

/-- Selector output whose Score field legitimately parses as 0. -/
def zeroScoreSel : String := "SELECTED MESSAGE: hi WHY THIS ONE because Score: 0/10"

/-- Claim C10 counterexample: a selector output parsed without any
exception can still yield message score 0, when its "Score:" field reads 0
— so "the score 0 arises only when generation or selection raises an
exception" is false: here the input is an ok response and the error field
stays empty, yet the score is 0. -/
theorem message_score_zero_without_exception :
    generate_message_for_employee (Except.ok zeroScoreSel)
      = { message := "hi", score := 0, error := "" } := by
  decide

/-- Claim C10 (amended): when the selector output contains the message
marker and its "Score:" field is absent or unparsable, the default message
score 8 is returned (not 0, not an error); and a score of 0 arises only
when generation or selection raised, when the "SELECTED MESSAGE:" marker is
missing (the IndexError path), or when the Score field itself parses as 0. -/
theorem message_score_default_eight (resp : Except String String) :
    (∀ sel chunk, resp = Except.ok sel →
        chunkAfterFirst "SELECTED MESSAGE:".toList sel.toList = some chunk →
        (containsSeq "Score:".toList sel.toList = false ∨
          pyParseInt (beforeFirst "/".toList
            ((chunkAfterFirst "Score:".toList sel.toList).getD [])) = none) →
        (generate_message_for_employee resp).score = 8)
    ∧ ((generate_message_for_employee resp).score = 0 →
        (∃ e, resp = Except.error e)
        ∨ (∃ sel, resp = Except.ok sel ∧
            (chunkAfterFirst "SELECTED MESSAGE:".toList sel.toList = none
             ∨ pyParseInt (beforeFirst "/".toList
                 ((chunkAfterFirst "Score:".toList sel.toList).getD [])) = some 0))) := by
  constructor
  · intro sel chunk hok hchunk hfail
    subst hok
    simp only [generate_message_for_employee]
    rw [hchunk]
    show extractScore sel = 8
    unfold extractScore
    rcases hfail with hf | hf
    · rw [if_neg (by rw [hf]; exact Bool.false_ne_true)]
    · by_cases hc : containsSeq "Score:".toList sel.toList = true
      · rw [if_pos hc, hf]
      · rw [if_neg hc]
  · intro hz
    cases resp with
    | error e => exact Or.inl ⟨e, rfl⟩
    | ok sel =>
      simp only [generate_message_for_employee] at hz
      refine Or.inr ⟨sel, rfl, ?_⟩
      cases hch : chunkAfterFirst "SELECTED MESSAGE:".toList sel.toList with
      | none => exact Or.inl rfl
      | some chunk =>
        rw [hch] at hz
        refine Or.inr ?_
        have hz8 : extractScore sel = 0 := hz
        unfold extractScore at hz8
        by_cases hc : containsSeq "Score:".toList sel.toList = true
        · rw [if_pos hc] at hz8
          cases hp : pyParseInt (beforeFirst "/".toList
              ((chunkAfterFirst "Score:".toList sel.toList).getD [])) with
          | none =>
            rw [hp] at hz8
            exact absurd hz8 (by decide)
          | some n =>
            rw [hp] at hz8
            have hn : n = 0 := hz8
            rw [hn]
        · rw [if_neg hc] at hz8
          exact absurd hz8 (by decide)

theorem message_score_default_eight_witness :
    (generate_message_for_employee (Except.ok "SELECTED MESSAGE: no score given")).score = 8 :=
  (message_score_default_eight (Except.ok "SELECTED MESSAGE: no score given")).1
    "SELECTED MESSAGE: no score given" " no score given".toList rfl (by decide)
    (Or.inl (by decide))

/-- Claim C2: in a batch run (research and scoring call returning), every
OutreachResult marked selected corresponds to an entry with its vmid among
the first N entries of the scored list — which is sorted by score
descending — with score at least 70; and (for employees with distinct
vmids, their identity field) at most N results are marked selected, where
N is the configured max_targets_per_company, defaulting to 3. -/
theorem selected_implies_top_n_and_bounded (cfg : Config) (emps : List Employee)
    (world : LLMWorld) (research : String) (resp : Option (List ScoreEntry))
    (hres : world.research = Except.ok research)
    (hresp : world.scoreResponse research = Except.ok resp)
    (hnodup : (emps.map Employee.vmid).Nodup) :
    List.Sorted scoreGE (score_employees emps resp)
    ∧ (∀ r ∈ process_company_batch cfg emps world, r.selected = true →
        ∃ s ∈ (score_employees emps resp).take (cfg.max_targets_per_company.getD 3),
          s.vmid = r.vmid ∧ 70 ≤ s.score)
    ∧ ((process_company_batch cfg emps world).filter (fun r => r.selected)).length
        ≤ cfg.max_targets_per_company.getD 3 := by
  rw [process_company_batch_ok cfg emps world research resp hres hresp]
  refine ⟨score_employees_sorted emps resp, ?_, ?_⟩
  · intro r hr hsel
    rcases mem_deliverLoop hr with ⟨emp, _, heq⟩
    have hrs := resultFor_selected _ _ _ _ heq
    have hissel : isSelectedIn (cfg.max_targets_per_company.getD 3)
        (score_employees emps resp) emp = true := by
      rw [← hrs.1, hsel]
    unfold isSelectedIn at hissel
    rcases List.any_eq_true.mp hissel with ⟨s, hsmem, hp⟩
    rw [Bool.and_eq_true] at hp
    refine ⟨s, hsmem, ?_, of_decide_eq_true hp.2⟩
    rw [hrs.2]
    exact beq_iff_eq.mp hp.1
  · rw [deliverLoop_selected_count]
    have hsub : ((emps.filter (fun e => isSelectedIn (cfg.max_targets_per_company.getD 3)
          (score_employees emps resp) e)).map Employee.vmid)
        ⊆ (((score_employees emps resp).take (cfg.max_targets_per_company.getD 3)).map
            EmployeeScore.vmid) := by
      intro v hvmem
      rcases List.mem_map.mp hvmem with ⟨e, he, rfl⟩
      have hPe := (List.mem_filter.mp he).2
      unfold isSelectedIn at hPe
      rcases List.any_eq_true.mp hPe with ⟨s, hsmem, hp⟩
      rw [Bool.and_eq_true] at hp
      exact List.mem_map.mpr ⟨s, hsmem, beq_iff_eq.mp hp.1⟩
    have hnd2 : ((emps.filter (fun e => isSelectedIn (cfg.max_targets_per_company.getD 3)
          (score_employees emps resp) e)).map Employee.vmid).Nodup :=
      List.Nodup.sublist ((List.filter_sublist emps).map Employee.vmid) hnodup
    have hsp := (hnd2.subperm hsub).length_le
    rw [List.length_map, List.length_map] at hsp
    exact le_trans hsp (List.length_take_le _ _)

theorem selected_implies_top_n_and_bounded_witness :
    List.Sorted scoreGE (score_employees [adaEmployee] none)
    ∧ (∀ r ∈ process_company_batch {} [adaEmployee] worldFallbackOk, r.selected = true →
        ∃ s ∈ (score_employees [adaEmployee] none).take
            (({} : Config).max_targets_per_company.getD 3),
          s.vmid = r.vmid ∧ 70 ≤ s.score)
    ∧ ((process_company_batch {} [adaEmployee] worldFallbackOk).filter
          (fun r => r.selected)).length
        ≤ ({} : Config).max_targets_per_company.getD 3 :=
  selected_implies_top_n_and_bounded {} [adaEmployee] worldFallbackOk "research text" none
    rfl rfl (by decide)
